import Mathlib

/-!
Verification development for the document template-filling engine in
`src/services/docService.ts` (with callers in `src/App.tsx` and
`src/components/ProductTable.tsx`).

The TypeScript source is shallowly embedded: strings are `List Char`,
JS numbers are modelled as exact rationals `ℚ`, fallible operations
return `Option`/`Except`, and the DOM tree of the primary markup part is
an explicit inductive. Every definition mirrors the corresponding source
function; deviations forced by the host language (e.g. the stable-sort
model) are noted in doc comments.
-/

namespace DocService

/-! ## Basic JS string primitives -/

/-- Whitespace characters removed by `String.prototype.trim` (the ASCII white
space and line terminators plus NBSP and the BOM; exotic Unicode space
separators are omitted as no scanned text contains them). -/
def isJsWs (c : Char) : Bool :=
  c == ' ' || c == '\t' || c == '\n' || c == '\r' || c == '\x0b' || c == '\x0c' ||
  c == ' ' || c == '﻿'

/-- Model of `String.prototype.trim`. -/
def jsTrim (s : List Char) : List Char :=
  ((s.dropWhile isJsWs).reverse.dropWhile isJsWs).reverse

/-- Model of `String.prototype.includes`: `pat` occurs as a contiguous
substring of `text`. -/
def includesSub (text pat : List Char) : Bool :=
  match text with
  | [] => pat.isEmpty
  | c :: rest => pat.isPrefixOf (c :: rest) || includesSub rest pat

/-! ## PlaceholderScanner (docService.ts lines 8-9, 21-39, 54-82) -/

/-- The reserved table keyword `TABLE_KEYWORD` (docService.ts line 9). -/
def TABLE_KEYWORD : List Char := "商品信息表格".data

/-- Rebuild the full tag text around a captured interior, as matched by the
placeholder regex: an opening brace-dash, the interior, a dash-closing brace. -/
def mkTag (content : List Char) : List Char :=
  '\x7b' :: '-' :: (content ++ ['-', '\x7d'])

/-- One-pass model of `text.matchAll(PLACEHOLDER_REGEX)` for the non-greedy
regex matching an opening brace-dash, a shortest nonempty interior, and a
dash-closing brace (docService.ts line 8). The second argument is `none`
outside a match attempt and `some acc` while consuming an interior whose
characters so far are `acc` (reversed). Matching restarts after the two
closing characters, like `lastIndex` does. Each returned pair is
(full tag text, captured interior). -/
def scanGo : List Char → Option (List Char) → List (List Char × List Char)
  | [], _ => []
  | [_], _ => []
  | a :: b :: rest, none =>
      if a = '\x7b' ∧ b = '-' then scanGo rest (some [])
      else scanGo (b :: rest) none
  | a :: b :: rest, some acc =>
      if a = '-' ∧ b = '\x7d' ∧ acc ≠ [] then
        (mkTag acc.reverse, acc.reverse) :: scanGo rest none
      else scanGo (b :: rest) (some (a :: acc))

/-- All placeholder matches of a raw text, in order (pairs of full tag text
and captured interior). -/
def scanMatches (s : List Char) : List (List Char × List Char) :=
  scanGo s none

/-- The `FieldDefinition` interface (types.ts lines 24-28). -/
structure FieldDefinition where
  originalTag : List Char
  fieldName : List Char
  isTable : Bool
deriving DecidableEq, Repr

/-- The dedup-and-classify loop over the matches (docService.ts lines 25-35
and 65-75): key by trimmed interior, keep the first occurrence's tag text,
classify as table iff the trimmed interior contains the keyword. `seen`
models the `uniqueFields` set. -/
def buildFields : List (List Char × List Char) → List (List Char) → List FieldDefinition
  | [], _ => []
  | (tag, content) :: rest, seen =>
      let c := jsTrim content
      if c ∈ seen then buildFields rest seen
      else ⟨tag, c, includesSub c TABLE_KEYWORD⟩ :: buildFields rest (c :: seen)

/-- Model of `fields.sort((a, b) => (a.isTable === b.isTable ? 0 : a.isTable ? 1 : -1))`
(docService.ts lines 37 and 81). `Array.prototype.sort` is stable (ES2019),
and a stable sort under this boolean comparator is exactly the partition
that keeps all scalar fields, in order, before all table fields, in order. -/
def sortScalarsFirst (l : List FieldDefinition) : List FieldDefinition :=
  l.filter (fun f => !f.isTable) ++ l.filter (fun f => f.isTable)

/-- The scan pipeline of `extractFieldsFromDoc` (docService.ts lines 21-39)
once the raw text has been obtained from the package. -/
def extractFields (rawText : List Char) : List FieldDefinition :=
  sortScalarsFirst (buildFields (scanMatches rawText) [])

/-- The scan pipeline of `extractFieldsFromExcel` (docService.ts lines 54-82):
the same matching and a single shared dedup set applied to the stream of
string-cell texts in sheet/row/cell iteration order. -/
def extractFieldsFromExcelTexts (cellTexts : List (List Char)) : List FieldDefinition :=
  sortScalarsFirst (buildFields ((cellTexts.map scanMatches).flatten) [])

/-! ## Scanner lemmas -/

theorem scanGo_cons_ne (a : Char) (t : List Char) (h : a ≠ '\x7b') :
    scanGo (a :: t) none = scanGo t none := by
  cases t with
  | nil => simp [scanGo]
  | cons b rest => simp [scanGo, h]

theorem scanGo_no_open (pre s : List Char) (h : '\x7b' ∉ pre) :
    scanGo (pre ++ s) none = scanGo s none := by
  induction pre with
  | nil => simp
  | cons a t ih =>
      have ha : a ≠ '\x7b' := fun hc => h (hc ▸ List.mem_cons_self a t)
      have ht : '\x7b' ∉ t := fun hc => h (List.mem_cons_of_mem a hc)
      simpa [scanGo_cons_ne a _ ha] using ih ht

theorem scanGo_nil_of_no_open (s : List Char) (h : '\x7b' ∉ s) :
    scanGo s none = [] := by
  have := scanGo_no_open s [] h
  simpa using this

theorem scanGo_close (rest : List Char) :
    ∀ (acc s : List Char), includesSub rest ['-', '\x7d'] = false →
    (acc = [] → rest ≠ []) →
    scanGo (rest ++ '-' :: '\x7d' :: s) (some acc) =
      (mkTag (acc.reverse ++ rest), acc.reverse ++ rest) :: scanGo s none := by
  induction rest with
  | nil =>
      intro acc s _ hne
      have hacc : acc ≠ [] := fun h => (hne h) rfl
      simp [scanGo, hacc]
  | cons r rs ih =>
      intro acc s hfree _
      have hfree' : includesSub rs ['-', '\x7d'] = false := by
        have : (List.isPrefixOf ['-', '\x7d'] (r :: rs) || includesSub rs ['-', '\x7d']) = false := by
          simpa [includesSub] using hfree
        exact (Bool.or_eq_false_iff.mp this).2
      have hnopref : List.isPrefixOf ['-', '\x7d'] (r :: rs) = false := by
        have : (List.isPrefixOf ['-', '\x7d'] (r :: rs) || includesSub rs ['-', '\x7d']) = false := by
          simpa [includesSub] using hfree
        exact (Bool.or_eq_false_iff.mp this).1
      cases rs with
      | nil =>
          have hres := ih (r :: acc) s hfree' (by simp)
          have : scanGo (r :: '-' :: '\x7d' :: s) (some acc) =
              scanGo ('-' :: '\x7d' :: s) (some (r :: acc)) := by
            simp only [scanGo]
            have : ¬ (r = '-' ∧ '-' = '\x7d' ∧ acc ≠ []) := by
              rintro ⟨-, h2, -⟩; exact absurd h2 (by decide)
            simp [this]
          rw [List.cons_append, List.nil_append] at *
          rw [this, hres]
          simp
      | cons r2 rs' =>
          have hstep : scanGo (r :: r2 :: (rs' ++ '-' :: '\x7d' :: s)) (some acc) =
              scanGo (r2 :: (rs' ++ '-' :: '\x7d' :: s)) (some (r :: acc)) := by
            simp only [scanGo]
            have hno : ¬ (r = '-' ∧ r2 = '\x7d' ∧ acc ≠ []) := by
              rintro ⟨h1, h2, -⟩
              have : List.isPrefixOf ['-', '\x7d'] (r :: r2 :: rs') = true := by
                simp [List.isPrefixOf, h1, h2]
              simp [this] at hnopref
            simp [hno]
          have hres := ih (r :: acc) s hfree' (by simp)
          simp only [List.cons_append] at *
          rw [hstep, hres]
          simp

theorem scanGo_tag (name s : List Char) (hne : name ≠ [])
    (hfree : includesSub name ['-', '\x7d'] = false) :
    scanGo (mkTag name ++ s) none = (mkTag name, name) :: scanGo s none := by
  have h1 : mkTag name ++ s = '\x7b' :: '-' :: (name ++ '-' :: '\x7d' :: s) := by
    simp [mkTag]
  rw [h1]
  have h2 : scanGo ('\x7b' :: '-' :: (name ++ '-' :: '\x7d' :: s)) none =
      scanGo (name ++ '-' :: '\x7d' :: s) (some []) := by
    cases hx : name ++ '-' :: '\x7d' :: s with
    | nil => simp at hx
    | cons c cs => simp [scanGo]
  rw [h2, scanGo_close name [] s hfree (fun _ => hne)]
  simp

/-! ## Field-construction lemmas -/

theorem buildFields_names_not_seen (ms : List (List Char × List Char)) :
    ∀ seen, (((buildFields ms seen).map (fun f => f.fieldName)).Nodup) ∧
      ∀ n ∈ (buildFields ms seen).map (fun f => f.fieldName), n ∉ seen := by
  induction ms with
  | nil => intro seen; simp [buildFields]
  | cons m rest ih =>
      intro seen
      obtain ⟨tag, content⟩ := m
      by_cases hc : jsTrim content ∈ seen
      · simpa [buildFields, hc] using ih seen
      · have ihx := ih (jsTrim content :: seen)
        rw [buildFields, if_neg hc]
        constructor
        · simp only [List.map_cons, List.nodup_cons]
          refine ⟨fun hmem => ?_, ihx.1⟩
          exact (ihx.2 _ hmem) (List.mem_cons_self _ _)
        · intro n hn
          simp only [List.map_cons, List.mem_cons] at hn
          rcases hn with rfl | hn
          · exact hc
          · exact fun hs => (ihx.2 n hn) (List.mem_cons_of_mem _ hs)

theorem buildFields_mem_first (ms : List (List Char × List Char)) :
    ∀ seen f, f ∈ buildFields ms seen →
      ∃ pre c post, ms = pre ++ (f.originalTag, c) :: post ∧ jsTrim c = f.fieldName ∧
        f.fieldName ∉ seen ∧ (∀ p ∈ pre, jsTrim p.2 ≠ f.fieldName) ∧
        f.isTable = includesSub f.fieldName TABLE_KEYWORD := by
  induction ms with
  | nil => intro seen f hf; simp [buildFields] at hf
  | cons m rest ih =>
      intro seen f hf
      obtain ⟨tag, content⟩ := m
      by_cases hc : jsTrim content ∈ seen
      · rw [buildFields, if_pos hc] at hf
        obtain ⟨pre, c, post, hsplit, htrim, hseen, hpre, htab⟩ := ih seen f hf
        refine ⟨(tag, content) :: pre, c, post, by simp [hsplit], htrim, hseen, ?_, htab⟩
        intro p hp
        rcases List.mem_cons.mp hp with rfl | hp
        · intro h; rw [h] at hc; exact hseen hc
        · exact hpre p hp
      · rw [buildFields, if_neg hc] at hf
        rcases List.mem_cons.mp hf with rfl | hf
        · exact ⟨[], content, rest, by simp, rfl, hc, by simp, rfl⟩
        · obtain ⟨pre, c, post, hsplit, htrim, hseen, hpre, htab⟩ := ih _ f hf
          have hne : f.fieldName ≠ jsTrim content :=
            fun h => hseen (h ▸ List.mem_cons_self _ _)
          refine ⟨(tag, content) :: pre, c, post, by simp [hsplit], htrim,
            fun hs => hseen (List.mem_cons_of_mem _ hs), ?_, htab⟩
          intro p hp
          rcases List.mem_cons.mp hp with rfl | hp
          · exact fun h => hne h.symm
          · exact hpre p hp

theorem buildFields_complete (ms : List (List Char × List Char)) :
    ∀ seen m, m ∈ ms → jsTrim m.2 ∈ seen ∨
      ∃ f ∈ buildFields ms seen, f.fieldName = jsTrim m.2 := by
  induction ms with
  | nil => intro seen m hm; simp at hm
  | cons hd rest ih =>
      intro seen m hm
      obtain ⟨tag, content⟩ := hd
      by_cases hc : jsTrim content ∈ seen
      · rcases List.mem_cons.mp hm with rfl | hm
        · exact Or.inl hc
        · rcases ih seen m hm with h | ⟨f, hf, hname⟩
          · exact Or.inl h
          · exact Or.inr ⟨f, by rw [buildFields, if_pos hc]; exact hf, hname⟩
      · rcases List.mem_cons.mp hm with rfl | hm
        · refine Or.inr ⟨⟨tag, jsTrim content, includesSub (jsTrim content) TABLE_KEYWORD⟩,
            ?_, rfl⟩
          rw [buildFields, if_neg hc]
          exact List.mem_cons_self _ _
        · rcases ih (jsTrim content :: seen) m hm with h | ⟨f, hf, hname⟩
          · rcases List.mem_cons.mp h with h | h
            · refine Or.inr ⟨⟨tag, jsTrim content, includesSub (jsTrim content) TABLE_KEYWORD⟩,
                ?_, by simpa using h.symm⟩
              rw [buildFields, if_neg hc]
              exact List.mem_cons_self _ _
            · exact Or.inl h
          · exact Or.inr ⟨f, by rw [buildFields, if_neg hc]; exact List.mem_cons_of_mem _ hf,
              hname⟩

/-! ## Sorting lemmas -/

theorem sortScalarsFirst_perm (l : List FieldDefinition) :
    (sortScalarsFirst l).Perm l := by
  have h := List.filter_append_perm (fun f => !f.isTable) l
  simpa [sortScalarsFirst, Bool.not_not] using h

theorem mem_sortScalarsFirst {f : FieldDefinition} {l : List FieldDefinition} :
    f ∈ sortScalarsFirst l ↔ f ∈ l := (sortScalarsFirst_perm l).mem_iff

/-! ## Claim C1 -/

/-- C1: for every raw text the scan output splits into scalar fields followed by
table fields; within each class the order is that of the deduplicated
first-occurrence sequence (`buildFields` emits fields in first-occurrence order of
the trimmed names); and for a text containing a scalar tag and a table tag the
scan returns exactly those two field definitions with the table-classified one
second, regardless of their order in the source text. -/
theorem C1_scalars_before_tables :
    (∀ rawText : List Char, ∃ s t, extractFields rawText = s ++ t ∧
        (∀ f ∈ s, f.isTable = false) ∧ (∀ f ∈ t, f.isTable = true))
  ∧ (∀ rawText : List Char,
        (extractFields rawText).filter (fun f => f.isTable) =
          (buildFields (scanMatches rawText) []).filter (fun f => f.isTable) ∧
        (extractFields rawText).filter (fun f => !f.isTable) =
          (buildFields (scanMatches rawText) []).filter (fun f => !f.isTable))
  ∧ (∀ pre mid post nameA nameT : List Char,
        '\x7b' ∉ pre → '\x7b' ∉ mid → '\x7b' ∉ post →
        nameA ≠ [] → nameT ≠ [] →
        includesSub nameA ['-', '\x7d'] = false →
        includesSub nameT ['-', '\x7d'] = false →
        includesSub (jsTrim nameA) TABLE_KEYWORD = false →
        includesSub (jsTrim nameT) TABLE_KEYWORD = true →
        extractFields (pre ++ mkTag nameA ++ mid ++ mkTag nameT ++ post) =
          [⟨mkTag nameA, jsTrim nameA, false⟩, ⟨mkTag nameT, jsTrim nameT, true⟩] ∧
        extractFields (pre ++ mkTag nameT ++ mid ++ mkTag nameA ++ post) =
          [⟨mkTag nameA, jsTrim nameA, false⟩, ⟨mkTag nameT, jsTrim nameT, true⟩]) := by
  refine ⟨?_, ?_, ?_⟩
  · intro rawText
    refine ⟨(buildFields (scanMatches rawText) []).filter (fun f => !f.isTable),
      (buildFields (scanMatches rawText) []).filter (fun f => f.isTable), rfl, ?_, ?_⟩
    · intro f hf
      have := (List.mem_filter.mp hf).2
      simpa using this
    · intro f hf
      exact (List.mem_filter.mp hf).2
  · intro rawText
    constructor
    · show (sortScalarsFirst _).filter _ = _
      simp [sortScalarsFirst, List.filter_append, List.filter_filter]
    · show (sortScalarsFirst _).filter _ = _
      simp [sortScalarsFirst, List.filter_append, List.filter_filter]
  · intro pre mid post nameA nameT hpre hmid hpost hneA hneT hfreeA hfreeT hktA hktT
    have hABne : jsTrim nameT ≠ jsTrim nameA := by
      intro h
      rw [h, hktA] at hktT
      exact Bool.false_ne_true hktT
    have hBAne : jsTrim nameA ≠ jsTrim nameT := fun h => hABne h.symm
    constructor
    · have s1 : scanMatches (pre ++ mkTag nameA ++ mid ++ mkTag nameT ++ post) =
          [(mkTag nameA, nameA), (mkTag nameT, nameT)] := by
        show scanGo _ none = _
        rw [show pre ++ mkTag nameA ++ mid ++ mkTag nameT ++ post =
            pre ++ (mkTag nameA ++ (mid ++ (mkTag nameT ++ post))) by
          simp [List.append_assoc]]
        rw [scanGo_no_open _ _ hpre, scanGo_tag _ _ hneA hfreeA,
          scanGo_no_open _ _ hmid, scanGo_tag _ _ hneT hfreeT,
          scanGo_nil_of_no_open _ hpost]
      show sortScalarsFirst (buildFields (scanMatches _) []) = _
      rw [s1]
      simp [buildFields, sortScalarsFirst, hktA, hktT, hABne]
    · have s2 : scanMatches (pre ++ mkTag nameT ++ mid ++ mkTag nameA ++ post) =
          [(mkTag nameT, nameT), (mkTag nameA, nameA)] := by
        show scanGo _ none = _
        rw [show pre ++ mkTag nameT ++ mid ++ mkTag nameA ++ post =
            pre ++ (mkTag nameT ++ (mid ++ (mkTag nameA ++ post))) by
          simp [List.append_assoc]]
        rw [scanGo_no_open _ _ hpre, scanGo_tag _ _ hneT hfreeT,
          scanGo_no_open _ _ hmid, scanGo_tag _ _ hneA hfreeA,
          scanGo_nil_of_no_open _ hpost]
      show sortScalarsFirst (buildFields (scanMatches _) []) = _
      rw [s2]
      simp [buildFields, sortScalarsFirst, hktA, hktT, hBAne]

/-- Witness for C1 at the spec's concrete scenario. -/
theorem C1_scalars_before_tables_witness :
    extractFields ("甲方：".data ++ mkTag "Party A".data ++ "，".data ++
        mkTag "商品信息表格".data ++ "。".data) =
      [⟨mkTag "Party A".data, jsTrim "Party A".data, false⟩,
       ⟨mkTag "商品信息表格".data, jsTrim "商品信息表格".data, true⟩] :=
  (C1_scalars_before_tables.2.2 "甲方：".data "，".data "。".data
    "Party A".data "商品信息表格".data (by decide) (by decide) (by decide)
    (by decide) (by decide) (by decide) (by decide) (by decide) (by decide)).1

/-! ## Claim C7 -/

/-- C7: deduplication is idempotent and keyed by trimmed content: the field names
of the scan output are pairwise distinct (so two tags with equal trimmed
interiors yield exactly one field definition), each field definition's original
tag is the full tag text of the first occurrence of its trimmed name in the
match sequence, and every match is represented by a field definition. -/
theorem C7_dedup_first_occurrence (rawText : List Char) :
    (((extractFields rawText).map (fun f => f.fieldName)).Nodup)
    ∧ (∀ f ∈ extractFields rawText,
        ∃ pre c post, scanMatches rawText = pre ++ (f.originalTag, c) :: post ∧
          jsTrim c = f.fieldName ∧ ∀ p ∈ pre, jsTrim p.2 ≠ f.fieldName)
    ∧ (∀ m ∈ scanMatches rawText,
        ∃ f ∈ extractFields rawText, f.fieldName = jsTrim m.2) := by
  refine ⟨?_, ?_, ?_⟩
  · have hperm := (sortScalarsFirst_perm (buildFields (scanMatches rawText) [])).map
      (fun f => f.fieldName)
    exact hperm.nodup_iff.mpr (buildFields_names_not_seen (scanMatches rawText) []).1
  · intro f hf
    have hf' : f ∈ buildFields (scanMatches rawText) [] := mem_sortScalarsFirst.mp hf
    obtain ⟨pre, c, post, h1, h2, _, h4, _⟩ := buildFields_mem_first _ [] f hf'
    exact ⟨pre, c, post, h1, h2, h4⟩
  · intro m hm
    rcases buildFields_complete _ [] m hm with h | ⟨f, hf, hn⟩
    · simp at h
    · exact ⟨f, mem_sortScalarsFirst.mpr hf, hn⟩

/-- Witness for C7: a text containing the same trimmed name twice (once padded)
yields distinct field names and a representative for the second occurrence. -/
theorem C7_dedup_first_occurrence_witness :
    (((extractFields (mkTag "A".data ++ mkTag " A ".data)).map
        (fun f => f.fieldName)).Nodup)
    ∧ (∃ f ∈ extractFields (mkTag "A".data ++ mkTag " A ".data),
        f.fieldName = jsTrim " A ".data) :=
  ⟨(C7_dedup_first_occurrence (mkTag "A".data ++ mkTag " A ".data)).1,
   (C7_dedup_first_occurrence (mkTag "A".data ++ mkTag " A ".data)).2.2
     (mkTag " A ".data, " A ".data) (by decide)⟩

/-! ## JS number rendering

JS numbers are binary floating-point values, i.e. dyadic rationals; we model
them as exact rationals. `String(n)` for a number whose exact value has a
finite decimal expansion prints that expansion with no trailing fractional
zeros (and no locale separators); every dyadic rational has one, so this
covers all values the source can pass. -/

/-- Multiplicity of a divisor `p ≥ 2` in `n` (0 for `n = 0`); the first
argument of `countFactorGo` is fuel, `n` itself suffices. -/
def countFactorGo (p : Nat) : Nat → Nat → Nat
  | 0, _ => 0
  | fuel + 1, n => if 2 ≤ p ∧ n ≠ 0 ∧ n % p = 0 then countFactorGo p fuel (n / p) + 1 else 0

def countFactor (p n : Nat) : Nat :=
  countFactorGo p n n

/-- Model of JS `String(q)` for a number `q`. With `a`, `b` the multiplicities
of 2 and 5 in the reduced denominator, `k = max a b` is the exact number of
fractional decimal digits; `k = 0` prints the integer with no point. -/
def jsNumToString (q : ℚ) : List Char :=
  let den := q.den
  let k := max (countFactor 2 den) (countFactor 5 den)
  let m := q.num.natAbs * (10 ^ k / den)
  let intPart := (Nat.repr (m / 10 ^ k)).data
  let digits :=
    if k = 0 then intPart
    else
      let ds := (Nat.repr (m % 10 ^ k)).data
      intPart ++ '.' :: (List.replicate (k - ds.length) '0' ++ ds)
  if q.num < 0 then '-' :: digits else digits

/-- A value passed to a cell: the source's `string | number`. -/
inductive CellContent where
  | str (s : List Char)
  | num (q : ℚ)
deriving DecidableEq, Repr

/-- JS `String(content)` over `string | number`. -/
def jsShow : CellContent → List Char
  | .str s => s
  | .num q => jsNumToString q

/-- The `ProductItem` interface (types.ts lines 1-10). -/
structure ProductItem where
  id : List Char
  name : List Char
  model : List Char
  unit : List Char
  quantity : ℚ
  price : ℚ
  amount : ℚ
  remark : List Char
deriving DecidableEq

/-! ## XML escaping (docService.ts lines 90-94) -/

/-- Model of `String.prototype.replace` with a global single-character regex. -/
def replaceAll (c : Char) (r : List Char) : List Char → List Char
  | [] => []
  | x :: xs => if x = c then r ++ replaceAll c r xs else x :: replaceAll c r xs

/-- The sanitization in `createCell`: three sequential global replacements, the
ampersand first. -/
def escapeXml (s : List Char) : List Char :=
  replaceAll '>' "&gt;".data (replaceAll '<' "&lt;".data (replaceAll '&' "&amp;".data s))

/-- Single-character view of the escaping (proved equal to `escapeXml`). -/
def escChar (c : Char) : List Char :=
  if c = '&' then "&amp;".data
  else if c = '<' then "&lt;".data
  else if c = '>' then "&gt;".data
  else [c]

/-- Model of XML entity decoding, as a parser of the serialized text performs
it (the three entities the source produces; a lone ampersand is passed
through). -/
def unescapeXml : List Char → List Char
  | [] => []
  | c :: rest =>
      if c = '&' then
        match rest with
        | 'a' :: 'm' :: 'p' :: ';' :: r => '&' :: unescapeXml r
        | 'l' :: 't' :: ';' :: r => '<' :: unescapeXml r
        | 'g' :: 't' :: ';' :: r => '>' :: unescapeXml r
        | r => c :: unescapeXml r
      else c :: unescapeXml rest

/-! ## TableFragmentBuilder (generateTableXml, docService.ts lines 85-149)

The source builds the fragment text by string concatenation of `createCell`
results. We mirror it in two layers: a structured list of rows of cells
(one cell per `createCell` call, in call order, carrying the call's content,
bold flag, alignment and grid span), and a renderer producing exactly the
source's concatenated text. -/

/-- One `createCell` call: content, bold flag, alignment string, grid span
(0 means no span attribute), matching the parameter defaults. -/
structure Cell where
  content : CellContent
  bold : Bool
  align : List Char
  gridSpan : Nat
deriving DecidableEq

/-- Rendered text inside the cell's run: `String(content)` escaped. -/
def cellText (cell : Cell) : List Char := jsShow cell.content

/-- The 8 fixed column headers (docService.ts line 119, repeated at lines 306
and 354). -/
def docTableHeaders : List (List Char) :=
  ["序号".data, "商品名称".data, "型号".data, "单位".data,
   "数量".data, "单价".data, "金额".data, "备注".data]

/-- Header row: each header bold and centered (docService.ts lines 120-124). -/
def headerRowDoc : List Cell :=
  docTableHeaders.map (fun h => ⟨.str h, true, "center".data, 0⟩)

/-- Data row for the item at zero-based `index` (docService.ts lines 127-138);
`item.remark || ''` is the identity on our required-string model. -/
def itemRowDoc (index : Nat) (it : ProductItem) : List Cell :=
  [⟨.num ((index + 1 : Nat) : ℚ), false, "center".data, 0⟩,
   ⟨.str it.name, false, "center".data, 0⟩,
   ⟨.str it.model, false, "center".data, 0⟩,
   ⟨.str it.unit, false, "center".data, 0⟩,
   ⟨.num it.quantity, false, "center".data, 0⟩,
   ⟨.num it.price, false, "center".data, 0⟩,
   ⟨.num it.amount, false, "center".data, 0⟩,
   ⟨.str it.remark, false, "center".data, 0⟩]

/-- Total row (docService.ts lines 141-145): a 6-column bold right-aligned
label cell, a bold centered total-value cell, one empty cell. -/
def totalRowDoc (total : ℚ) : List Cell :=
  [⟨.str "合计：".data, true, "right".data, 6⟩,
   ⟨.num total, true, "center".data, 0⟩,
   ⟨.str [], false, "center".data, 0⟩]

/-- The item rows in input order, indices counting from the first argument. -/
def itemRowsDoc : Nat → List ProductItem → List (List Cell)
  | _, [] => []
  | i, it :: rest => itemRowDoc i it :: itemRowsDoc (i + 1) rest

/-- The fragment's rows: header, one row per item in input order, total row.
This function is total: every `(items, total)` pair is accepted. -/
def generateTableRows (items : List ProductItem) (total : ℚ) : List (List Cell) :=
  headerRowDoc :: (itemRowsDoc 0 items ++ [totalRowDoc total])

/-- Bold run properties (docService.ts line 88). -/
def boldXml (bold : Bool) : List Char :=
  if bold then "<w:rPr><w:b/></w:rPr>".data else []

/-- Grid-span property (docService.ts line 89). -/
def gridSpanXml (n : Nat) : List Char :=
  if n > 0 then "<w:gridSpan w:val=\"".data ++ (Nat.repr n).data ++ "\"/>".data else []

/-- The exact cell template of `createCell` (docService.ts lines 96-113),
whitespace included. -/
def renderCell (cell : Cell) : List Char :=
  "\n      <w:tc>\n        <w:tcPr>\n          <w:tcW w:w=\"0\" w:type=\"auto\"/>\n          ".data
  ++ gridSpanXml cell.gridSpan
  ++ "\n          <w:vAlign w:val=\"center\"/>\n        </w:tcPr>\n        <w:p>\n          <w:pPr>\n            <w:jc w:val=\"".data
  ++ cell.align
  ++ "\"/>\n          </w:pPr>\n          <w:r>\n            ".data
  ++ boldXml cell.bold
  ++ "\n            <w:t>".data
  ++ escapeXml (cellText cell)
  ++ "</w:t>\n          </w:r>\n        </w:p>\n      </w:tc>\n    ".data

/-- Table opening markup (docService.ts line 116). -/
def tblOpenXml : List Char :=
  ("<w:tbl><w:tblPr><w:tblW w:w=\"5000\" w:type=\"pct\"/><w:tblBorders>" ++
   "<w:top w:val=\"single\" w:sz=\"4\" w:space=\"0\" w:color=\"auto\"/>" ++
   "<w:left w:val=\"single\" w:sz=\"4\" w:space=\"0\" w:color=\"auto\"/>" ++
   "<w:bottom w:val=\"single\" w:sz=\"4\" w:space=\"0\" w:color=\"auto\"/>" ++
   "<w:right w:val=\"single\" w:sz=\"4\" w:space=\"0\" w:color=\"auto\"/>" ++
   "<w:insideH w:val=\"single\" w:sz=\"4\" w:space=\"0\" w:color=\"auto\"/>" ++
   "<w:insideV w:val=\"single\" w:sz=\"4\" w:space=\"0\" w:color=\"auto\"/>" ++
   "</w:tblBorders></w:tblPr>").data

/-- One row's markup (docService.ts lines 120-145): row opening, the cells in
order, row closing. -/
def renderRow (cells : List Cell) : List Char :=
  "<w:tr>".data ++ (cells.map renderCell).flatten ++ "</w:tr>".data

/-- The full `generateTableXml` string (docService.ts lines 85-149). -/
def generateTableXml (items : List ProductItem) (total : ℚ) : List Char :=
  tblOpenXml ++ ((generateTableRows items total).map renderRow).flatten ++ "</w:tbl>".data

/-- Sum of the item amounts. -/
def sumAmounts (items : List ProductItem) : ℚ :=
  (items.map (fun it => it.amount)).sum

/-- The caller-side total: `items.reduce((sum, item) => sum + item.amount, 0)`
in the product-table editor (ProductTable.tsx lines 16-21). -/
def productTableTotal (items : List ProductItem) : ℚ :=
  items.foldl (fun s it => s + it.amount) 0

/-! ## Escaping lemmas and claim C6 -/

theorem replaceAll_append (c : Char) (r s t : List Char) :
    replaceAll c r (s ++ t) = replaceAll c r s ++ replaceAll c r t := by
  induction s with
  | nil => simp [replaceAll]
  | cons x xs ih =>
      by_cases hx : x = c <;> simp [replaceAll, hx, ih]

theorem escapeXml_eq_flat (s : List Char) :
    escapeXml s = (s.map escChar).flatten := by
  induction s with
  | nil => rfl
  | cons c cs ih =>
      have step : escapeXml (c :: cs) = escChar c ++ escapeXml cs := by
        by_cases h1 : c = '&'
        · subst h1
          show replaceAll '>' _ (replaceAll '<' _ (replaceAll '&' _ ('&' :: cs))) = _
          rw [show replaceAll '&' "&amp;".data ('&' :: cs) =
              "&amp;".data ++ replaceAll '&' "&amp;".data cs by simp [replaceAll]]
          rw [replaceAll_append, replaceAll_append]
          rw [show replaceAll '<' "&lt;".data "&amp;".data = "&amp;".data by decide]
          rw [show replaceAll '>' "&gt;".data "&amp;".data = "&amp;".data by decide]
          rfl
        · by_cases h2 : c = '<'
          · subst h2
            show replaceAll '>' _ (replaceAll '<' _ (replaceAll '&' _ ('<' :: cs))) = _
            rw [show replaceAll '&' "&amp;".data ('<' :: cs) =
                '<' :: replaceAll '&' "&amp;".data cs by simp [replaceAll]]
            rw [show replaceAll '<' "&lt;".data ('<' :: replaceAll '&' "&amp;".data cs) =
                "&lt;".data ++ replaceAll '<' "&lt;".data (replaceAll '&' "&amp;".data cs) by
              simp [replaceAll]]
            rw [replaceAll_append]
            rw [show replaceAll '>' "&gt;".data "&lt;".data = "&lt;".data by decide]
            rfl
          · by_cases h3 : c = '>'
            · subst h3
              show replaceAll '>' _ (replaceAll '<' _ (replaceAll '&' _ ('>' :: cs))) = _
              rw [show replaceAll '&' "&amp;".data ('>' :: cs) =
                  '>' :: replaceAll '&' "&amp;".data cs by simp [replaceAll]]
              rw [show replaceAll '<' "&lt;".data ('>' :: replaceAll '&' "&amp;".data cs) =
                  '>' :: replaceAll '<' "&lt;".data (replaceAll '&' "&amp;".data cs) by
                simp [replaceAll]]
              rw [show replaceAll '>' "&gt;".data
                  ('>' :: replaceAll '<' "&lt;".data (replaceAll '&' "&amp;".data cs)) =
                  "&gt;".data ++ replaceAll '>' "&gt;".data
                    (replaceAll '<' "&lt;".data (replaceAll '&' "&amp;".data cs)) by
                simp [replaceAll]]
              rfl
            · show replaceAll '>' _ (replaceAll '<' _ (replaceAll '&' _ (c :: cs))) = _
              rw [show replaceAll '&' "&amp;".data (c :: cs) =
                  c :: replaceAll '&' "&amp;".data cs by simp [replaceAll, h1]]
              rw [show replaceAll '<' "&lt;".data (c :: replaceAll '&' "&amp;".data cs) =
                  c :: replaceAll '<' "&lt;".data (replaceAll '&' "&amp;".data cs) by
                simp [replaceAll, h2]]
              rw [show replaceAll '>' "&gt;".data
                  (c :: replaceAll '<' "&lt;".data (replaceAll '&' "&amp;".data cs)) =
                  c :: replaceAll '>' "&gt;".data
                    (replaceAll '<' "&lt;".data (replaceAll '&' "&amp;".data cs)) by
                simp [replaceAll, h3]]
              show c :: escapeXml cs = escChar c ++ _
              simp [escChar, h1, h2, h3]
      rw [step, ih]
      simp

theorem unescapeXml_cons_ne (c : Char) (rest : List Char) (h : c ≠ '&') :
    unescapeXml (c :: rest) = c :: unescapeXml rest := by
  rw [unescapeXml.eq_def]
  simp [h]

set_option maxRecDepth 8000 in
/-- C6: every string value embedded in a table-fragment cell is escaped for
the three markup-reserved characters before embedding (the cell's run text is
`escapeXml` of the cell's shown content), and the escaping round-trips: XML
entity decoding of the escaped text yields back the original literal string,
for every input. -/
theorem C6_escape_roundtrip :
    (∀ s : List Char, unescapeXml (escapeXml s) = s)
  ∧ (∀ cell : Cell, ∃ pre post,
      renderCell cell =
        pre ++ ("<w:t>".data ++ escapeXml (cellText cell) ++ "</w:t>".data) ++ post) := by
  constructor
  · intro s
    rw [escapeXml_eq_flat]
    induction s with
    | nil => rfl
    | cons c cs ih =>
        by_cases h1 : c = '&'
        · subst h1; simpa [escChar, unescapeXml] using ih
        · by_cases h2 : c = '<'
          · subst h2; simpa [escChar, unescapeXml] using ih
          · by_cases h3 : c = '>'
            · subst h3; simpa [escChar, unescapeXml] using ih
            · have : (((c :: cs).map escChar).flatten) =
                  c :: ((cs.map escChar).flatten) := by
                simp [escChar, h1, h2, h3]
              rw [this, unescapeXml_cons_ne c _ h1, ih]
  · intro cell
    refine ⟨"\n      <w:tc>\n        <w:tcPr>\n          <w:tcW w:w=\"0\" w:type=\"auto\"/>\n          ".data
      ++ gridSpanXml cell.gridSpan
      ++ "\n          <w:vAlign w:val=\"center\"/>\n        </w:tcPr>\n        <w:p>\n          <w:pPr>\n            <w:jc w:val=\"".data
      ++ cell.align
      ++ "\"/>\n          </w:pPr>\n          <w:r>\n            ".data
      ++ boldXml cell.bold
      ++ "\n            ".data,
      "\n          </w:r>\n        </w:p>\n      </w:tc>\n    ".data, ?_⟩
    show renderCell cell = _
    rw [renderCell]
    rw [show "\n            <w:t>".data = "\n            ".data ++ "<w:t>".data by decide]
    rw [show "</w:t>\n          </w:r>\n        </w:p>\n      </w:tc>\n    ".data =
        "</w:t>".data ++ "\n          </w:r>\n        </w:p>\n      </w:tc>\n    ".data by decide]
    simp [List.append_assoc]

/-! ## Claim C8 -/

/-- C8: building a fragment from the empty item list with total 0 never fails
(the builder is total) and yields exactly the header row and the total row,
with the total-value cell's text exactly the one-character string 0. -/
theorem C8_empty_items_fragment :
    generateTableRows [] 0 = [headerRowDoc, totalRowDoc 0]
    ∧ (generateTableRows [] 0).length = 2
    ∧ ((generateTableRows [] 0).getLast?.bind fun r => (r.get? 1).map cellText) =
        some "0".data := by
  refine ⟨rfl, rfl, ?_⟩
  decide

/-! ## Claim C9 -/

theorem generateTableRows_getLast (items : List ProductItem) (total : ℚ) :
    (generateTableRows items total).getLast? = some (totalRowDoc total) := by
  show (headerRowDoc :: (itemRowsDoc 0 items ++ [totalRowDoc total])).getLast? = _
  rw [show headerRowDoc :: (itemRowsDoc 0 items ++ [totalRowDoc total]) =
      (headerRowDoc :: itemRowsDoc 0 items) ++ [totalRowDoc total] by simp]
  exact List.getLast?_concat _

/-- C9: for every item list and total, the fragment's last row is the total
row, which consists of exactly three cells: a cell spanning 6 columns holding
the right-aligned bold total label, a centered cell holding the total value,
and one empty cell. -/
theorem C9_total_row_shape (items : List ProductItem) (total : ℚ) :
    (generateTableRows items total).getLast? = some (totalRowDoc total)
    ∧ totalRowDoc total =
        [⟨.str "合计：".data, true, "right".data, 6⟩,
         ⟨.num total, true, "center".data, 0⟩,
         ⟨.str [], false, "center".data, 0⟩] :=
  ⟨generateTableRows_getLast items total, rfl⟩

/-! ## Claim C3 -/

/-- C3 is refuted: the table-fragment builder verifies nothing at its
boundary. For the empty item list with total 1 the invariant fails
(the amounts sum to 0, not 1), yet the builder still accepts the pair and
produces the full fragment, rendering the total-value cell as 1. -/
theorem C3_counterexample :
    generateTableRows [] 1 = [headerRowDoc, totalRowDoc 1]
    ∧ ((generateTableRows [] 1).getLast?.bind fun r => (r.get? 1).map cellText) =
        some "1".data
    ∧ ¬ (sumAmounts [] = (1 : ℚ)) := by
  refine ⟨rfl, by decide, by decide⟩

theorem foldl_add_amount (items : List ProductItem) :
    ∀ s : ℚ, items.foldl (fun a it => a + it.amount) s = s + sumAmounts items := by
  induction items with
  | nil => intro s; simp [sumAmounts]
  | cons hd tl ih =>
      intro s
      show tl.foldl _ (s + hd.amount) = _
      rw [ih (s + hd.amount)]
      simp [sumAmounts, add_assoc]

/-- C3 amended: the builder performs no verification at the generation
boundary: it accepts every pair of item list and total and embeds the given
total verbatim in the total-value cell. The invariant that the total equals
the sum of the item amounts is established by the caller alone: the
product-table editor recomputes the total as exactly that sum on every edit
(ProductTable.tsx lines 16-21). -/
theorem C3_no_boundary_verification (items : List ProductItem) (total : ℚ) :
    (generateTableRows items total).getLast? = some (totalRowDoc total)
    ∧ (totalRowDoc total).get? 1 = some ⟨.num total, true, "center".data, 0⟩
    ∧ productTableTotal items = sumAmounts items := by
  refine ⟨generateTableRows_getLast items total, rfl, ?_⟩
  show items.foldl _ 0 = _
  rw [foldl_add_amount items 0, zero_add]

/-! ## Supplementary tabular export (generateExcelTable, docService.ts 353-375) -/

/-- Model of `Array.prototype.join` with a one-character separator: elements
are concatenated verbatim with the bare separator between them, with no
quoting or escaping. -/
def joinWith (sep : Char) : List (List Char) → List Char
  | [] => []
  | [x] => x
  | x :: y :: rest => x ++ sep :: joinWith sep (y :: rest)

/-- One exported item row (docService.ts lines 355-364). -/
def csvItemRow (index : Nat) (it : ProductItem) : List CellContent :=
  [.num ((index + 1 : Nat) : ℚ), .str it.name, .str it.model, .str it.unit,
   .num it.quantity, .num it.price, .num it.amount, .str it.remark]

/-- The item rows with indices from `i` (source: `items.map` with its index). -/
def csvItemRowsGo : Nat → List ProductItem → List (List CellContent)
  | _, [] => []
  | i, it :: rest => csvItemRow i it :: csvItemRowsGo (i + 1) rest

/-- The appended total row (docService.ts line 366). -/
def csvTotalRow (total : ℚ) : List CellContent :=
  [.str [], .str [], .str [], .str [], .str [], .str "合计".data, .num total, .str []]

/-- The full export text (docService.ts lines 353-375): a byte-order mark,
then the header line and the data lines joined by bare newlines, each line
the bare-comma join of its shown values. -/
def generateExcelTable (items : List ProductItem) (total : ℚ) : List Char :=
  let rows := csvItemRowsGo 0 items ++ [csvTotalRow total]
  let csvContent :=
    joinWith '\n' (joinWith ',' docTableHeaders ::
      rows.map (fun row => joinWith ',' (row.map jsShow)))
  '﻿' :: csvContent

theorem joinWith_eq_intercalate (sep : Char) (l : List (List Char)) :
    joinWith sep l = List.intercalate [sep] l := by
  induction l with
  | nil => rfl
  | cons x rest ih =>
      cases rest with
      | nil => simp [joinWith, List.intercalate]
      | cons y t =>
          rw [joinWith, ih]
          simp [List.intercalate]

theorem csvItemRowsGo_map_join (items : List ProductItem) :
    ∀ i : Nat,
      (csvItemRowsGo i items).map (fun row => joinWith ',' (row.map jsShow)) =
        (List.enumFrom i items).map (fun p =>
          List.intercalate [','] [jsNumToString ((p.1 + 1 : Nat) : ℚ), p.2.name,
            p.2.model, p.2.unit, jsNumToString p.2.quantity, jsNumToString p.2.price,
            jsNumToString p.2.amount, p.2.remark]) := by
  induction items with
  | nil => intro i; rfl
  | cons it rest ih =>
      intro i
      show (fun row => joinWith ',' (row.map jsShow)) (csvItemRow i it) ::
          (csvItemRowsGo (i + 1) rest).map _ = _
      rw [ih (i + 1)]
      simp only [List.enumFrom, List.map_cons]
      congr 1
      rw [show (csvItemRow i it).map jsShow =
          [jsNumToString ((i + 1 : Nat) : ℚ), it.name, it.model, it.unit,
           jsNumToString it.quantity, jsNumToString it.price,
           jsNumToString it.amount, it.remark] from rfl]
      rw [joinWith_eq_intercalate]

/-! ## Claim C5 -/

/-- C5: the supplementary tabular export starts with a byte-order mark; its
first line is the bare-comma join of the 8 fixed column headers; it has one
line per item, in input order, with the columns index+1, name, model, unit,
quantity, price, amount, remark; its final line is five empty fields, the
total label, the total, and an empty field; and string values are joined
verbatim by the bare separator, with no quoting or escaping of embedded
commas or newlines. -/
theorem C5_csv_export_shape (items : List ProductItem) (total : ℚ) :
    generateExcelTable items total =
      '﻿' :: List.intercalate ['\n']
        (List.intercalate [','] docTableHeaders
          :: ((List.enumFrom 0 items).map (fun p =>
                List.intercalate [','] [jsNumToString ((p.1 + 1 : Nat) : ℚ), p.2.name,
                  p.2.model, p.2.unit, jsNumToString p.2.quantity,
                  jsNumToString p.2.price, jsNumToString p.2.amount, p.2.remark])
              ++ [List.intercalate [',']
                   [[], [], [], [], [], "合计".data, jsNumToString total, []]]))
    ∧ docTableHeaders.length = 8
    ∧ (∀ s : List Char, jsShow (.str s) = s) := by
  refine ⟨?_, rfl, fun _ => rfl⟩
  show '﻿' :: joinWith '\n' (joinWith ',' docTableHeaders ::
      ((csvItemRowsGo 0 items ++ [csvTotalRow total]).map
        (fun row => joinWith ',' (row.map jsShow)))) = _
  rw [List.map_append, csvItemRowsGo_map_join items 0]
  rw [show ([csvTotalRow total].map (fun row => joinWith ',' (row.map jsShow))) =
      [joinWith ',' ((csvTotalRow total).map jsShow)] from rfl]
  rw [show (csvTotalRow total).map jsShow =
      [[], [], [], [], [], "合计".data, jsNumToString total, []] from rfl]
  rw [joinWith_eq_intercalate ',' docTableHeaders,
    joinWith_eq_intercalate ',' [[], [], [], [], [], "合计".data, jsNumToString total, []],
    joinWith_eq_intercalate '\n']

/-! ## Spreadsheet variant (generateFilledExcel, docService.ts 261-351)

A worksheet is modelled as its list of rows in order; a row carries its cell
values and the style properties the source sets: a bold font flag, an
optional row-level horizontal alignment, and per-cell (1-based column index)
alignment overrides. -/

structure SRow where
  values : List CellContent
  fontBold : Bool
  halign : Option (List Char)
  cellAligns : List (Nat × List Char)
deriving DecidableEq

/-- The header row written over the anchor row (docService.ts lines 309-314):
values replaced by the 8 headers, bold font, centered alignment. -/
def excelHeaderRow : SRow :=
  ⟨docTableHeaders.map CellContent.str, true, some "center".data, []⟩

/-- An inserted item row (docService.ts lines 319-336): the 8 item columns,
centered, not bold. -/
def excelItemRow (idx : Nat) (it : ProductItem) : SRow :=
  ⟨[.num ((idx + 1 : Nat) : ℚ), .str it.name, .str it.model, .str it.unit,
    .num it.quantity, .num it.price, .num it.amount, .str it.remark],
   false, some "center".data, []⟩

/-- The inserted total row (docService.ts lines 338-345): label, five empty
cells, the total in column 7, an empty cell; bold, right-aligned, with
column 7 centered. -/
def excelTotalRow (total : ℚ) : SRow :=
  ⟨[.str "合计".data, .str [], .str [], .str [], .str [], .str [],
    .num total, .str []],
   true, some "right".data, [(7, "center".data)]⟩

/-- The item-insertion loop (docService.ts lines 317-336): successive
`insertRow` calls at increasing positions, each pushing the following rows
down by one. Positions are 0-based list indices (ExcelJS row numbers are
1-based). -/
def insertItemRows : List SRow → Nat → Nat → List ProductItem → List SRow
  | ws, _, _, [] => ws
  | ws, pos, idx, it :: rest =>
      insertItemRows (ws.insertIdx pos (excelItemRow idx it)) (pos + 1) (idx + 1) rest

/-- The table-insertion block (docService.ts lines 305-346) given the anchor
row's 0-based index: overwrite the anchor row with the header row in place,
insert the item rows after it, then insert the total row. -/
def insertTableRows (ws : List SRow) (anchorIdx : Nat) (items : List ProductItem)
    (total : ℚ) : List SRow :=
  let ws1 := ws.set anchorIdx excelHeaderRow
  let ws2 := insertItemRows ws1 (anchorIdx + 1) 0 items
  ws2.insertIdx (anchorIdx + 1 + items.length) (excelTotalRow total)

/-- The inserted item rows as a list, indices from `idx`. -/
def excelItemRowList : Nat → List ProductItem → List SRow
  | _, [] => []
  | idx, it :: rest => excelItemRow idx it :: excelItemRowList (idx + 1) rest

theorem insertIdx_junction {α : Type} (A : List α) (B : List α) (a : α) :
    (A ++ B).insertIdx A.length a = A ++ a :: B := by
  induction A with
  | nil => simp [List.insertIdx]
  | cons x xs ih => simpa [List.insertIdx_succ_cons] using ih

theorem excelItemRowList_length (items : List ProductItem) :
    ∀ idx, (excelItemRowList idx items).length = items.length := by
  induction items with
  | nil => intro idx; rfl
  | cons it rest ih => intro idx; simpa [excelItemRowList] using ih (idx + 1)

theorem insertItemRows_then_total (items : List ProductItem) :
    ∀ (C B : List SRow) (idx : Nat) (total : ℚ),
      (insertItemRows (C ++ B) C.length idx items).insertIdx
          (C.length + items.length) (excelTotalRow total) =
        C ++ (excelItemRowList idx items ++ excelTotalRow total :: B) := by
  induction items with
  | nil =>
      intro C B idx total
      show (C ++ B).insertIdx (C.length + 0) (excelTotalRow total) = _
      rw [Nat.add_zero, insertIdx_junction]
      rfl
  | cons it rest ih =>
      intro C B idx total
      show (insertItemRows ((C ++ B).insertIdx C.length (excelItemRow idx it))
          (C.length + 1) (idx + 1) rest).insertIdx
          (C.length + (rest.length + 1)) (excelTotalRow total) = _
      rw [insertIdx_junction]
      have hlen : C.length + 1 = (C ++ [excelItemRow idx it]).length := by simp
      have hlen2 : C.length + (rest.length + 1) =
          (C ++ [excelItemRow idx it]).length + rest.length := by simp; omega
      rw [show C ++ excelItemRow idx it :: B = (C ++ [excelItemRow idx it]) ++ B by simp,
        hlen, hlen2, ih (C ++ [excelItemRow idx it]) B (idx + 1) total]
      simp [excelItemRowList]

/-! ## Claim C2 -/

/-- C2 is refuted at a concrete sheet: with one row after the anchor and one
item, the claim's shift of items.length + 2 = 3 would put the old follower
row at index 4, but the result has only 4 rows (the follower sits at index
3, a shift of items.length + 1 = 2, because the header overwrites the anchor
row in place instead of being inserted). -/
theorem C2_counterexample :
    (insertTableRows
        [⟨[.str (mkTag "商品信息表格".data)], false, none, []⟩,
         ⟨[.str "after".data], false, none, []⟩] 0
        [⟨"1".data, "甲".data, "M1".data, "个".data, 2, 100, 200, "".data⟩]
        200).get? (1 + 3) = none
    ∧ (insertTableRows
        [⟨[.str (mkTag "商品信息表格".data)], false, none, []⟩,
         ⟨[.str "after".data], false, none, []⟩] 0
        [⟨"1".data, "甲".data, "M1".data, "个".data, 2, 100, 200, "".data⟩]
        200).get? (1 + 2) = some ⟨[.str "after".data], false, none, []⟩ := by
  constructor <;> decide

/-- C2 amended: when a table anchor is found at some row of the spreadsheet,
the header row overwrites the anchor row in place (bold, centered), the item
rows (centered) and the bold right-aligned total row (with the total column
centered) are inserted immediately after it, and every row that previously
followed the anchor row is shifted down by items.length + 1 — the number of
inserted rows (items + total); the header does not shift anything because it
replaces the anchor row rather than being inserted. -/
theorem C2_insertion_and_shift (ws : List SRow) (anchorIdx : Nat)
    (items : List ProductItem) (total : ℚ) (h : anchorIdx < ws.length) :
    insertTableRows ws anchorIdx items total =
      ws.take anchorIdx ++ excelHeaderRow ::
        (excelItemRowList 0 items ++ excelTotalRow total :: ws.drop (anchorIdx + 1))
    ∧ (insertTableRows ws anchorIdx items total).length = ws.length + items.length + 1
    ∧ (insertTableRows ws anchorIdx items total).drop (anchorIdx + items.length + 2) =
        ws.drop (anchorIdx + 1) := by
  have hset : ws.set anchorIdx excelHeaderRow =
      ws.take anchorIdx ++ excelHeaderRow :: ws.drop (anchorIdx + 1) := by
    rw [List.set_eq_take_append_cons_drop]
    simp [h]
  have hC : (ws.take anchorIdx ++ [excelHeaderRow]).length = anchorIdx + 1 := by
    simp [List.length_take, Nat.min_eq_left (Nat.le_of_lt h)]
  have hmain : insertTableRows ws anchorIdx items total =
      ws.take anchorIdx ++ excelHeaderRow ::
        (excelItemRowList 0 items ++ excelTotalRow total :: ws.drop (anchorIdx + 1)) := by
    show (insertItemRows (ws.set anchorIdx excelHeaderRow) (anchorIdx + 1) 0 items).insertIdx
        (anchorIdx + 1 + items.length) (excelTotalRow total) = _
    set D := ws.drop (anchorIdx + 1) with hD
    rw [hset]
    rw [show ws.take anchorIdx ++ excelHeaderRow :: D =
        (ws.take anchorIdx ++ [excelHeaderRow]) ++ D by simp]
    rw [show anchorIdx + 1 = (ws.take anchorIdx ++ [excelHeaderRow]).length from hC.symm]
    rw [insertItemRows_then_total items (ws.take anchorIdx ++ [excelHeaderRow]) D 0 total]
    simp
  refine ⟨hmain, ?_, ?_⟩
  · rw [hmain]
    simp [excelItemRowList_length, List.length_drop]
    omega
  · rw [hmain]
    rw [show ws.take anchorIdx ++ excelHeaderRow ::
        (excelItemRowList 0 items ++ excelTotalRow total :: ws.drop (anchorIdx + 1)) =
        (ws.take anchorIdx ++ excelHeaderRow ::
          (excelItemRowList 0 items ++ [excelTotalRow total])) ++ ws.drop (anchorIdx + 1) by
      simp]
    have hlen : (ws.take anchorIdx ++ excelHeaderRow ::
        (excelItemRowList 0 items ++ [excelTotalRow total])).length =
        anchorIdx + items.length + 2 := by
      simp [excelItemRowList_length, List.length_take, Nat.min_eq_left (Nat.le_of_lt h)]
      omega
    rw [show anchorIdx + items.length + 2 = (ws.take anchorIdx ++ excelHeaderRow ::
        (excelItemRowList 0 items ++ [excelTotalRow total])).length from hlen.symm]
    exact List.drop_left _ _

/-- Witness for C2 at a concrete two-row sheet with one item. -/
theorem C2_insertion_and_shift_witness :
    insertTableRows
        [⟨[.str (mkTag "商品信息表格".data)], false, none, []⟩,
         ⟨[.str "after".data], false, none, []⟩] 0
        [⟨"1".data, "甲".data, "M1".data, "个".data, 2, 100, 200, "".data⟩] 200 =
      [] ++ excelHeaderRow ::
        (excelItemRowList 0 [⟨"1".data, "甲".data, "M1".data, "个".data, 2, 100, 200, "".data⟩]
          ++ excelTotalRow 200 :: [⟨[.str "after".data], false, none, []⟩]) :=
  (C2_insertion_and_shift
    [⟨[.str (mkTag "商品信息表格".data)], false, none, []⟩,
     ⟨[.str "after".data], false, none, []⟩] 0
    [⟨"1".data, "甲".data, "M1".data, "个".data, 2, 100, 200, "".data⟩] 200
    (by decide)).1

/-! ## TemplateRenderer (docService.ts lines 167-188)

The substitution pass of the external template engine, configured with the
custom delimiters, over the primary markup part's text: every well-formed
tag is replaced by the value mapped to its trimmed interior (the engine
ignores surrounding whitespace in tag names); a missing key renders the
engine's default null text. Values are opaque text, with no recursive
expansion. Engine errors on malformed tags are outside the modelled claims,
which only exercise well-formed templates; malformed trailing text is kept
verbatim. -/

def lookupStr (data : List (List Char × List Char)) (k : List Char) : Option (List Char) :=
  (data.find? (fun p => p.1 == k)).map (fun p => p.2)

/-- Value substituted for a tag with the given raw interior. -/
def valueFor (data : List (List Char × List Char)) (content : List Char) : List Char :=
  match lookupStr data (jsTrim content) with
  | some v => v
  | none => "undefined".data

/-- One-pass substitution with the same matching discipline as `scanGo`. -/
def renderGo (data : List (List Char × List Char)) :
    List Char → Option (List Char) → List Char
  | [], none => []
  | [a], none => [a]
  | [], some acc => '\x7b' :: '-' :: acc.reverse
  | [a], some acc => '\x7b' :: '-' :: (acc.reverse ++ [a])
  | a :: b :: rest, none =>
      if a = '\x7b' ∧ b = '-' then renderGo data rest (some [])
      else a :: renderGo data (b :: rest) none
  | a :: b :: rest, some acc =>
      if a = '-' ∧ b = '\x7d' ∧ acc ≠ [] then
        valueFor data acc.reverse ++ renderGo data rest none
      else renderGo data (b :: rest) (some (a :: acc))

def render (data : List (List Char × List Char)) (docXml : List Char) : List Char :=
  renderGo data docXml none

/-- The sentinel token (docService.ts line 171): fixed prefix, random numeric
suffix, fixed tail. -/
def sentinelOf (rnd : Nat) : List Char :=
  "___INSERT_TABLE_HERE_".data ++ (Nat.repr rnd).data ++ "___".data

/-- Model of `templateData[key] = value` on the spread copy of `data`
(docService.ts lines 172-177). -/
def upsert (data : List (List Char × List Char)) (k v : List Char) :
    List (List Char × List Char) :=
  if data.any (fun p => p.1 == k) then
    data.map (fun p => if p.1 == k then (p.1, v) else p)
  else data ++ [(k, v)]

/-! ## Renderer lemmas -/

theorem renderGo_cons_ne (data : List (List Char × List Char)) (a : Char)
    (t : List Char) (h : a ≠ '\x7b') :
    renderGo data (a :: t) none = a :: renderGo data t none := by
  cases t with
  | nil => simp [renderGo]
  | cons b rest => simp [renderGo, h]

theorem renderGo_no_open (data : List (List Char × List Char)) (pre s : List Char)
    (h : '\x7b' ∉ pre) :
    renderGo data (pre ++ s) none = pre ++ renderGo data s none := by
  induction pre with
  | nil => simp
  | cons a t ih =>
      have ha : a ≠ '\x7b' := fun hc => h (hc ▸ List.mem_cons_self a t)
      have ht : '\x7b' ∉ t := fun hc => h (List.mem_cons_of_mem a hc)
      rw [List.cons_append, renderGo_cons_ne data a _ ha, ih ht]
      rfl

theorem renderGo_close (data : List (List Char × List Char)) (rest : List Char) :
    ∀ (acc s : List Char), includesSub rest ['-', '\x7d'] = false →
    (acc = [] → rest ≠ []) →
    renderGo data (rest ++ '-' :: '\x7d' :: s) (some acc) =
      valueFor data (acc.reverse ++ rest) ++ renderGo data s none := by
  induction rest with
  | nil =>
      intro acc s _ hne
      have hacc : acc ≠ [] := fun h => (hne h) rfl
      simp [renderGo, hacc]
  | cons r rs ih =>
      intro acc s hfree _
      have hsplit : (List.isPrefixOf ['-', '\x7d'] (r :: rs) ||
          includesSub rs ['-', '\x7d']) = false := by
        simpa [includesSub] using hfree
      have hfree' : includesSub rs ['-', '\x7d'] = false :=
        (Bool.or_eq_false_iff.mp hsplit).2
      have hnopref : List.isPrefixOf ['-', '\x7d'] (r :: rs) = false :=
        (Bool.or_eq_false_iff.mp hsplit).1
      cases rs with
      | nil =>
          have hres := ih (r :: acc) s hfree' (by simp)
          have hstep : renderGo data (r :: '-' :: '\x7d' :: s) (some acc) =
              renderGo data ('-' :: '\x7d' :: s) (some (r :: acc)) := by
            simp only [renderGo]
            have : ¬ (r = '-' ∧ '-' = '\x7d' ∧ acc ≠ []) := by
              rintro ⟨-, h2, -⟩; exact absurd h2 (by decide)
            simp [this]
          rw [List.cons_append, List.nil_append] at *
          rw [hstep, hres]
          simp
      | cons r2 rs' =>
          have hstep : renderGo data (r :: r2 :: (rs' ++ '-' :: '\x7d' :: s)) (some acc) =
              renderGo data (r2 :: (rs' ++ '-' :: '\x7d' :: s)) (some (r :: acc)) := by
            simp only [renderGo]
            have hno : ¬ (r = '-' ∧ r2 = '\x7d' ∧ acc ≠ []) := by
              rintro ⟨h1, h2, -⟩
              have : List.isPrefixOf ['-', '\x7d'] (r :: r2 :: rs') = true := by
                simp [List.isPrefixOf, h1, h2]
              simp [this] at hnopref
            simp [hno]
          have hres := ih (r :: acc) s hfree' (by simp)
          simp only [List.cons_append] at *
          rw [hstep, hres]
          simp

theorem renderGo_tag (data : List (List Char × List Char)) (name s : List Char)
    (hne : name ≠ []) (hfree : includesSub name ['-', '\x7d'] = false) :
    renderGo data (mkTag name ++ s) none =
      valueFor data name ++ renderGo data s none := by
  have h1 : mkTag name ++ s = '\x7b' :: '-' :: (name ++ '-' :: '\x7d' :: s) := by
    simp [mkTag]
  rw [h1]
  have h2 : renderGo data ('\x7b' :: '-' :: (name ++ '-' :: '\x7d' :: s)) none =
      renderGo data (name ++ '-' :: '\x7d' :: s) (some []) := by
    cases hx : name ++ '-' :: '\x7d' :: s with
    | nil => simp at hx
    | cons c cs => simp [renderGo]
  rw [h2, renderGo_close data name [] s hfree (fun _ => hne)]
  simp

theorem lookupStr_upsert (data : List (List Char × List Char)) (k v : List Char) :
    lookupStr (upsert data k v) k = some v := by
  unfold upsert
  by_cases h : data.any (fun p => p.1 == k)
  · rw [if_pos h]
    induction data with
    | nil => simp at h
    | cons hd tl ih =>
        by_cases hk : hd.1 = k
        · simp [lookupStr, List.find?, hk]
        · have hk' : (hd.1 == k) = false := by simpa using hk
          have h' : tl.any (fun p => p.1 == k) = true := by
            simpa [List.any_cons, hk'] using h
          have := ih h'
          simpa [lookupStr, List.find?, hk'] using this
  · rw [if_neg h]
    induction data with
    | nil => simp [lookupStr, List.find?]
    | cons hd tl ih =>
        have hk' : (hd.1 == k) = false := by
          by_contra hc
          have : (hd.1 == k) = true := by simpa using hc
          exact h (by simp [List.any_cons, this])
        have h' : ¬ tl.any (fun p => p.1 == k) = true := by
          intro hc
          exact h (by simp [List.any_cons, hc])
        have := ih h'
        simpa [lookupStr, List.find?, hk'] using this

/-! ## PackageSplicer (docService.ts lines 190-242)

The rendered primary part is parsed into a DOM tree, the text-bearing
`w:t` elements are scanned in document order for one whose text content
exactly equals the sentinel, the ancestor chain is walked up to the nearest
enclosing `w:p`, and that block is replaced by the imported table fragment;
the mutated tree is reserialized. The DOM is modelled as a mutual inductive
(element with name, attributes and children, or text node), nodes are
addressed by child-index paths from the root, and the parser and serializer
model `DOMParser` / `XMLSerializer` on the markup subset the source
produces. -/

mutual
inductive Xml where
  | text (s : List Char)
  | elem (name : List Char) (attrs : List (List Char × List Char)) (children : XmlList)
inductive XmlList where
  | nil
  | cons (x : Xml) (xs : XmlList)
end

mutual
/-- Concatenated text of all descendant text nodes (`Node.textContent`). -/
def textContentX : Xml → List Char
  | .text s => s
  | .elem _ _ cs => textContentL cs
def textContentL : XmlList → List Char
  | .nil => []
  | .cons x xs => textContentX x ++ textContentL xs
end

mutual
/-- Paths (child-index sequences from the node) of all elements named `w:t`,
in document order (a node before its descendants), as
`getElementsByTagName` enumerates them. -/
def wtPathsX : Xml → List (List Nat)
  | .text _ => []
  | .elem n _ cs =>
      (if n = "w:t".data then [([] : List Nat)] else []) ++ wtPathsL cs 0
def wtPathsL : XmlList → Nat → List (List Nat)
  | .nil, _ => []
  | .cons x xs, i => (wtPathsX x).map (fun p => i :: p) ++ wtPathsL xs (i + 1)
end

def childAt : XmlList → Nat → Option Xml
  | .nil, _ => none
  | .cons x _, 0 => some x
  | .cons _ xs, n + 1 => childAt xs n

/-- Node addressed by a child-index path. -/
def getAt : Xml → List Nat → Option Xml
  | x, [] => some x
  | .text _, _ :: _ => none
  | .elem _ _ cs, i :: p =>
      match childAt cs i with
      | some c => getAt c p
      | none => none

/-- Text content of the node at a path (empty for a missing node). -/
def textAt (x : Xml) (p : List Nat) : List Char :=
  match getAt x p with
  | some n => textContentX n
  | none => []

def isWp : Xml → Bool
  | .elem n _ _ => n = "w:p".data
  | _ => false

/-- The ancestor-chain walk (docService.ts lines 206-213): the longest proper
prefix of the path addressing an element named `w:p`, i.e. the nearest
enclosing paragraph; `none` when the walk reaches the root without one. -/
def nearestPAnc (tree : Xml) (p : List Nat) : Option (List Nat) :=
  ((List.range p.length).reverse.map (fun k => p.take k)).find? (fun q =>
    match getAt tree q with
    | some n => isWp n
    | none => false)

mutual
/-- Replacement of the node at a path (`replaceChild` on its parent; the
empty path replaces the root, whose parent is the document). -/
def replaceAtX (x : Xml) (path : List Nat) (new : Xml) : Xml :=
  match path, x with
  | [], _ => new
  | _ :: _, .text s => .text s
  | i :: p, .elem n a cs => .elem n a (replaceAtL cs i p new)
termination_by (path.length, 0)
def replaceAtL (l : XmlList) (i : Nat) (p : List Nat) (new : Xml) : XmlList :=
  match l, i with
  | .nil, _ => .nil
  | .cons c rest, 0 => .cons (replaceAtX c p new) rest
  | .cons c rest, k + 1 => .cons c (replaceAtL rest k p new)
termination_by (p.length, sizeOf l + 1)
end

/-- Attribute-value escaping of the serializer. -/
def escapeAttr (s : List Char) : List Char :=
  replaceAll '"' "&quot;".data (escapeXml s)

def serializeAttrs (attrs : List (List Char × List Char)) : List Char :=
  (attrs.map (fun a => ' ' :: (a.1 ++ '=' :: '"' :: (escapeAttr a.2 ++ ['"'])))).flatten

mutual
/-- Model of `XMLSerializer.serializeToString`: text nodes re-escaped,
childless elements self-closed. -/
def serializeX : Xml → List Char
  | .text s => escapeXml s
  | .elem n attrs cs =>
      match cs with
      | .nil => '<' :: (n ++ serializeAttrs attrs ++ ['/', '>'])
      | .cons _ _ =>
          '<' :: (n ++ serializeAttrs attrs ++ ['>']) ++ serializeL cs ++
            ('<' :: '/' :: (n ++ ['>']))
def serializeL : XmlList → List Char
  | .nil => []
  | .cons x xs => serializeX x ++ serializeL xs
end

/-! ## XML parser (model of `DOMParser.parseFromString(..., "text/xml")`)

A recursive-descent parser for the markup subset involved: elements with
double-quoted attributes, self-closing tags, text runs with entity decoding,
and an optional leading XML declaration. Malformed input yields `none` (the
real parser yields an error document with no `w:t` nodes; the pipeline
treats both as the no-anchor case). The first argument is fuel. -/

def isNameChar (c : Char) : Bool :=
  !(isJsWs c || c == '>' || c == '/' || c == '=' || c == '<' || c == '"' || c == '?')

def pAttrs : Nat → List Char →
    Option (List (List Char × List Char) × List Char × Bool)
  | 0, _ => none
  | fuel + 1, s =>
      match s.dropWhile isJsWs with
      | '>' :: r => some ([], r, false)
      | '/' :: '>' :: r => some ([], r, true)
      | s1 =>
          match s1.span isNameChar with
          | ([], _) => none
          | (an, s2) =>
              match s2.dropWhile isJsWs with
              | '=' :: s3 =>
                  match s3.dropWhile isJsWs with
                  | '"' :: s4 =>
                      match s4.span (fun c => !(c == '"')) with
                      | (av, '"' :: s6) =>
                          match pAttrs fuel s6 with
                          | some (rest, r, sc) =>
                              some ((an, unescapeXml av) :: rest, r, sc)
                          | none => none
                      | _ => none
                  | _ => none
              | _ => none

def pNodes : Nat → List Char → Option (XmlList × List Char)
  | 0, _ => none
  | fuel + 1, s =>
      match s with
      | [] => some (.nil, [])
      | '<' :: '/' :: _ => some (.nil, s)
      | '<' :: r =>
          match r.span isNameChar with
          | ([], _) => none
          | (nm, r1) =>
              match pAttrs fuel r1 with
              | some (attrs, r2, true) =>
                  match pNodes fuel r2 with
                  | some (sibs, r3) => some (.cons (.elem nm attrs .nil) sibs, r3)
                  | none => none
              | some (attrs, r2, false) =>
                  match pNodes fuel r2 with
                  | some (children, r3) =>
                      match r3 with
                      | '<' :: '/' :: r4 =>
                          match r4.span isNameChar with
                          | (nm2, r5) =>
                              if nm2 = nm then
                                match r5.dropWhile isJsWs with
                                | '>' :: r6 =>
                                    match pNodes fuel r6 with
                                    | some (sibs, r7) =>
                                        some (.cons (.elem nm attrs children) sibs, r7)
                                    | none => none
                                | _ => none
                              else none
                      | _ => none
                  | none => none
              | none => none
      | _ =>
          match s.span (fun c => !(c == '<')) with
          | (txt, rest) =>
              match pNodes fuel rest with
              | some (sibs, r) => some (.cons (.text (unescapeXml txt)) sibs, r)
              | none => none

/-- Drop a leading `<?...?>` declaration. -/
def dropDeclEnd : List Char → List Char
  | [] => []
  | '?' :: '>' :: r => r
  | _ :: r => dropDeclEnd r

def stripDecl (s : List Char) : List Char :=
  match s with
  | '<' :: '?' :: r => dropDeclEnd r
  | _ => s

/-- Parse a document: exactly one root element consuming the whole input. -/
def parseXml (s : List Char) : Option Xml :=
  match pNodes (s.length + 1) (stripDecl s) with
  | some (.cons (.elem n a cs) .nil, []) => some (.elem n a cs)
  | _ => none

mutual
/-- First element with the given name in document order
(`getElementsByTagName(nm)[0]`). -/
def findElemX (nm : List Char) : Xml → Option Xml
  | .text _ => none
  | .elem n a cs => if n = nm then some (.elem n a cs) else findElemL nm cs
def findElemL (nm : List Char) : XmlList → Option Xml
  | .nil => none
  | .cons x xs =>
      match findElemX nm x with
      | some e => some e
      | none => findElemL nm xs
end

/-- The table fragment as an imported subtree (docService.ts lines 218-229):
the generated table markup is wrapped in a namespace-carrying root, parsed,
and its first `w:tbl` element taken. -/
def parseTableNode (items : List ProductItem) (total : ℚ) : Option Xml :=
  match parseXml
      ("<root xmlns:w=\"http://schemas.openxmlformats.org/wordprocessingml/2006/main\">".data
        ++ generateTableXml items total ++ "</root>".data) with
  | some root => findElemX "w:tbl".data root
  | none => none

/-- The `tableData` parameter of `generateFilledDocument`. -/
structure TableData where
  items : List ProductItem
  total : ℚ

/-- Fatal generation failures distinguished by the source. -/
inductive GenError where
  | emptyFile
deriving DecidableEq, Repr

/-- The produced package, reduced to the parts the core writes: the primary
markup part's text, and whether the no-anchor warning was raised. -/
structure GenResult where
  docXml : List Char
  warned : Bool

/-- The whole of `generateFilledDocument` (docService.ts lines 151-259) over
the primary markup part's text. `rnd` is the value drawn from the random
number generator at line 171. An empty input is the fatal read error
(line 163). The table field is the first table-flagged field (line 174);
when present, its key is remapped to the sentinel before substitution
(line 176). The splice block (lines 194-242) runs only when a table field,
table data and the primary part are all present: the first sentinel-bearing
`w:t` with an enclosing `w:p` has that paragraph replaced by the imported
fragment and the tree is reserialized; without such a node only a console
warning is emitted (line 240) and the rendered text is kept; a parse failure
yields an error document without `w:t` nodes, hence the same no-anchor path.
When table data is absent the block is skipped silently (no warning). -/
def generateFilledDocument (docXml : List Char) (data : List (List Char × List Char))
    (tableData : Option TableData) (fields : Option (List FieldDefinition))
    (rnd : Nat) : Except GenError GenResult :=
  if docXml.isEmpty then .error .emptyFile
  else
    let sentinel := sentinelOf rnd
    let tableField := (fields.getD []).find? (fun f => f.isTable)
    let templateData :=
      match tableField with
      | some f => upsert data f.fieldName sentinel
      | none => data
    let rendered := render templateData docXml
    match tableField, tableData with
    | some _, some td =>
        match parseXml rendered with
        | some tree =>
            let candidates := (wtPathsX tree).filter (fun p => textAt tree p == sentinel)
            match candidates.find? (fun p => (nearestPAnc tree p).isSome) with
            | some p =>
                match nearestPAnc tree p with
                | some q =>
                    match parseTableNode td.items td.total with
                    | some tbl => .ok ⟨serializeX (replaceAtX tree q tbl), false⟩
                    | none => .ok ⟨rendered, false⟩
                | none => .ok ⟨rendered, true⟩
            | none => .ok ⟨rendered, true⟩
        | none => .ok ⟨rendered, true⟩
    | _, _ => .ok ⟨rendered, false⟩

/-! ## Claim C10 -/

/-- C10: when the field list contains a table field but no table data is
supplied, generation succeeds without error, the splice block is skipped
silently, and the returned primary part is exactly the rendered text in
which the table field's tag has been replaced by the literal sentinel token
(fixed prefix plus random numeric suffix); in particular the sentinel occurs
verbatim in the output in place of the tag and is not removed. -/
theorem C10_sentinel_without_tabledata (pre post name : List Char)
    (data : List (List Char × List Char)) (fl : List FieldDefinition)
    (f : FieldDefinition) (rnd : Nat)
    (hpre : '\x7b' ∉ pre) (hname : name ≠ [])
    (hfree : includesSub name ['-', '\x7d'] = false)
    (hfind : fl.find? (fun g => g.isTable) = some f)
    (hkey : f.fieldName = jsTrim name) :
    generateFilledDocument (pre ++ mkTag name ++ post) data none (some fl) rnd =
      .ok ⟨pre ++ (sentinelOf rnd ++
          render (upsert data f.fieldName (sentinelOf rnd)) post), false⟩
    ∧ ∃ l r, pre ++ (sentinelOf rnd ++
          render (upsert data f.fieldName (sentinelOf rnd)) post) =
        l ++ sentinelOf rnd ++ r := by
  constructor
  · have hne : pre ++ mkTag name ++ post ≠ [] := by simp [mkTag]
    have hempty : (pre ++ mkTag name ++ post).isEmpty = false := by
      cases hx : pre ++ mkTag name ++ post with
      | nil => exact absurd hx hne
      | cons a t => rfl
    have hrender : render (upsert data f.fieldName (sentinelOf rnd))
        (pre ++ mkTag name ++ post) =
        pre ++ (sentinelOf rnd ++
          render (upsert data f.fieldName (sentinelOf rnd)) post) := by
      rw [show pre ++ mkTag name ++ post = pre ++ (mkTag name ++ post) by
        simp [List.append_assoc]]
      show renderGo _ _ none = _
      rw [renderGo_no_open _ pre _ hpre, renderGo_tag _ name post hname hfree]
      have hv : valueFor (upsert data f.fieldName (sentinelOf rnd)) name =
          sentinelOf rnd := by
        rw [valueFor, ← hkey, lookupStr_upsert]
      rw [hv]
      rfl
    simp only [generateFilledDocument, hempty, Bool.false_eq_true, if_false,
      Option.getD_some, hfind]
    rw [hrender]
  · exact ⟨pre, render (upsert data f.fieldName (sentinelOf rnd)) post, by simp⟩

/-- Witness for C10: a one-paragraph document whose only tag is the table
field's tag, rendered with no table data. -/
theorem C10_sentinel_without_tabledata_witness :
    generateFilledDocument
        ("<w:document><w:p><w:t>".data ++ mkTag "商品信息表格".data ++
          "</w:t></w:p></w:document>".data)
        [("客户".data, "ACME".data)] none
        (some [⟨mkTag "商品信息表格".data, "商品信息表格".data, true⟩]) 12345 =
      .ok ⟨"<w:document><w:p><w:t>".data ++ (sentinelOf 12345 ++
          render (upsert [("客户".data, "ACME".data)]
            (FieldDefinition.mk (mkTag "商品信息表格".data) "商品信息表格".data
              true).fieldName (sentinelOf 12345))
            "</w:t></w:p></w:document>".data), false⟩ :=
  (C10_sentinel_without_tabledata "<w:document><w:p><w:t>".data
    "</w:t></w:p></w:document>".data "商品信息表格".data
    [("客户".data, "ACME".data)]
    [⟨mkTag "商品信息表格".data, "商品信息表格".data, true⟩]
    ⟨mkTag "商品信息表格".data, "商品信息表格".data, true⟩ 12345
    (by decide) (by decide) (by decide) (by decide) (by decide)).1

/-! ## Claim C4 -/

/-- C4: when the parsed rendered document contains no `w:t` node whose text
content exactly equals the sentinel token, splicing is skipped without a
fatal error: generation succeeds, the returned primary part is exactly the
rendered text (scalar substitutions only, no table inserted), and the
non-fatal warning condition is raised. -/
theorem C4_sentinel_absent_soft_skip (docXml : List Char)
    (data : List (List Char × List Char)) (td : TableData)
    (fl : List FieldDefinition) (f : FieldDefinition) (rnd : Nat) (tree : Xml)
    (hne : docXml ≠ [])
    (hfind : fl.find? (fun g => g.isTable) = some f)
    (hparse : parseXml (render (upsert data f.fieldName (sentinelOf rnd)) docXml) =
      some tree)
    (hnomatch : ∀ p ∈ wtPathsX tree, textAt tree p ≠ sentinelOf rnd) :
    generateFilledDocument docXml data (some td) (some fl) rnd =
      .ok ⟨render (upsert data f.fieldName (sentinelOf rnd)) docXml, true⟩ := by
  have hempty : docXml.isEmpty = false := by
    cases hx : docXml with
    | nil => exact absurd hx hne
    | cons a t => rfl
  have hfilter : (wtPathsX tree).filter
      (fun p => textAt tree p == sentinelOf rnd) = [] := by
    rw [List.filter_eq_nil_iff]
    intro p hp
    simpa using hnomatch p hp
  simp only [generateFilledDocument, hempty, Bool.false_eq_true, if_false,
    Option.getD_some, hfind, hparse, hfilter, List.find?_nil]

/-- Witness for C4: the table field's tag never occurs in the document, so
the sentinel is absent from the rendered tree. -/
theorem C4_sentinel_absent_soft_skip_witness :
    generateFilledDocument
        ("<w:document><w:p><w:r><w:t>".data ++ mkTag "客户".data ++
          "</w:t></w:r></w:p></w:document>".data)
        [("客户".data, "ACME".data)]
        (some ⟨[], 0⟩)
        (some [⟨mkTag "商品信息表格".data, "商品信息表格".data, true⟩]) 7 =
      .ok ⟨render (upsert [("客户".data, "ACME".data)]
          (FieldDefinition.mk (mkTag "商品信息表格".data) "商品信息表格".data
            true).fieldName (sentinelOf 7))
          ("<w:document><w:p><w:r><w:t>".data ++ mkTag "客户".data ++
            "</w:t></w:r></w:p></w:document>".data), true⟩ :=
  C4_sentinel_absent_soft_skip
    ("<w:document><w:p><w:r><w:t>".data ++ mkTag "客户".data ++
      "</w:t></w:r></w:p></w:document>".data)
    [("客户".data, "ACME".data)] ⟨[], 0⟩
    [⟨mkTag "商品信息表格".data, "商品信息表格".data, true⟩]
    ⟨mkTag "商品信息表格".data, "商品信息表格".data, true⟩ 7
    (.elem "w:document".data []
      (.cons (.elem "w:p".data []
        (.cons (.elem "w:r".data []
          (.cons (.elem "w:t".data [] (.cons (.text "ACME".data) .nil)) .nil))
          .nil)) .nil))
    (by decide) (by decide) rfl (by decide)

end DocService
